import Mathlib

/-!
Shallow embedding of `src/code/kopernikus_solution.py` (class `SimilarPhotoRemover`).

The program has three stages:
* `load_input`   — removes the `.DS_Store` marker file, then groups the folder's
  file names into a dict keyed by the first 3 characters of each name
  (lines 32-48 of the source);
* `identify_similar_photos` — per camera, walks the file names, decodes each
  image, compares it against the current representative and collects
  "unwanted" names (lines 80-141);
* `remove_similar_photos`  — deletes every name on the unwanted list,
  swallowing exceptions, and counts (lines 157-176).

The OpenCV / imaging primitives (`cv2.imread`, `cv2.resize`,
`preprocess_image_change_detection`, `compare_frames_change_detection`) are
external collaborators; they are modelled as components of an abstract
environment `CVEnv`.  The one piece of `cv2.resize` semantics the program
relies on is its documented contract: `cv2.resize(img, dsize)` with
`dsize = (a, b)` returns an image of width `a` and height `b`; that contract
is baked into `cv2_resize` while the pixel content stays abstract.
Scores are modelled as integers: the program only ever compares the score
against the threshold, so only the order matters.
-/

namespace Kopernikus

/-- A decoded image: `cv2.imread` returns a pixel grid of shape
`(height, width, 3)`; the channel count is constant, so the shape is
modelled as `(height, width)` and the pixel content as an abstract list. -/
structure Image where
  height : Nat
  width : Nat
  data : List Nat
deriving DecidableEq, Repr

/-- The external imaging environment: `cv2.imread` (decode may fail),
the pixel content produced by `cv2.resize` (its shape contract is separate,
see `cv2_resize`), `preprocess_image_change_detection` (takes the Gaussian
blur radius list) and `compare_frames_change_detection` specialised to its
first output, the score (takes the minimum contour area). -/
structure CVEnv where
  imread : String → Option Image
  resizeData : Image → Nat × Nat → List Nat
  preprocess : List Nat → Image → Image
  score_change : Image → Image → Int → Int

/-- `cv2.resize(img, dsize)` with `dsize = (a, b)`: the output image has
width `a` and height `b` (OpenCV's `dsize` is `(width, height)`); the
resampled pixel content is supplied by the environment. -/
def cv2_resize (env : CVEnv) (img : Image) (dsize : Nat × Nat) : Image :=
  { height := dsize.2, width := dsize.1, data := env.resizeData img dsize }

/-! ### Loader: `load_input` (lines 16-58) -/

/-- The OS-generated non-photo marker file the loader deletes up front. -/
def dsStoreName : String := ".DS_Store"

/-- The camera dictionary: a Python dict modelled as an insertion-ordered
association list (Python dicts preserve insertion order and have unique
keys). -/
abbrev Dict := List (String × List String)

/-- First-match lookup in the dictionary, i.e. `d[c]` when `c in d`. -/
def lookupD (d : Dict) (c : String) : Option (List String) :=
  (d.find? (fun p => p.1 = c)).map Prod.snd

/-- `self.dataset_dict[camera].append(file_name)`: append `f` to the value
of the (unique) entry whose key is `cam`. -/
def appendToKey : Dict → String → String → Dict
  | [], _, _ => []
  | p :: d, cam, f =>
      if p.1 = cam then (p.1, p.2 ++ [f]) :: d else p :: appendToKey d cam f

/-- One iteration of the loader's grouping loop (lines 43-48):
`camera = file_name[0:3]`; if the key is new, create it with an EMPTY list
(the triggering file name is NOT appended); otherwise append the name. -/
def insertFile (d : Dict) (file_name : String) : Dict :=
  let camera := file_name.take 3
  if (d.find? (fun p => p.1 = camera)).isSome then
    appendToKey d camera file_name
  else
    d ++ [(camera, [])]

/-- The loader's grouping of a directory listing (the `for file_name in
os.listdir(...)` loop, lines 43-48). -/
def load_input_dict (listing : List String) : Dict :=
  listing.foldl insertFile []

/-- `os.remove` on the modelled folder: succeeds iff the file is present,
otherwise raises `FileNotFoundError`. -/
def osRemove (fs : List String) (name : String) : Except String (List String) :=
  if name ∈ fs then .ok (fs.filter (fun n => ¬ n = name)) else .error "FileNotFoundError"

/-- `load_input` (lines 16-48): first try to `os.remove` the `.DS_Store`
marker, catching `FileNotFoundError` (lines 33-36), then group the folder's
remaining entries.  The folder is modelled by its listing `fs`. -/
def load_input (fs : List String) : Except String Dict :=
  match osRemove fs dsStoreName with
  | .ok fs2 => .ok (load_input_dict fs2)
  | .error _ => .ok (load_input_dict fs)

/-! ### Change detector: `identify_similar_photos` (lines 60-141) -/

/-- The detector's per-camera loop state: `current_image` (the
representative, `none` while in the EMPTY state) and the accumulated
`unwanted_images` list. -/
structure DetectState where
  current : Option Image
  unwanted : List String
deriving DecidableEq, Repr

/-- Shape reconciliation (lines 112-116): if the shapes differ, resize
`next_image` with `new_dim = (current_image.shape[1], current_image.shape[0])
= (width, height)`, which is exactly OpenCV's `dsize` convention, so the
result has the representative's `(height, width)`. -/
def reconcile (env : CVEnv) (current_image next_image : Image) : Image :=
  if (current_image.height, current_image.width) = (next_image.height, next_image.width) then
    next_image
  else
    cv2_resize env next_image (current_image.width, current_image.height)

/-- Preprocess both images and extract the change score
(lines 119-127): `compare_frames_change_detection(preprocess(cur),
preprocess(next), min_contour_area)`, keeping only the score. -/
def stepScore (env : CVEnv) (blur : List Nat) (mca : Int)
    (current_image next_image : Image) : Int :=
  env.score_change (env.preprocess blur current_image)
    (env.preprocess blur next_image) mca

/-- One iteration of the detector's inner loop (lines 92-136):
decode the file; on decode failure append the name and continue (98-100);
if no representative yet, adopt the image (104-106); otherwise reconcile
shapes (112-116), score (119-127) and either append the name
(score below threshold, 131-132) or promote the candidate to
representative (134-136). -/
def processFile (env : CVEnv) (blur : List Nat) (thr mca : Int)
    (s : DetectState) (image_idx_name : String) : DetectState :=
  match env.imread image_idx_name with
  | none => { s with unwanted := s.unwanted ++ [image_idx_name] }
  | some image =>
    match s.current with
    | none => { s with current := some image }
    | some current_image =>
      let next_image := reconcile env current_image image
      let score := stepScore env blur mca current_image next_image
      if score < thr then
        { s with unwanted := s.unwanted ++ [image_idx_name] }
      else
        { s with current := some next_image }

/-- The detector's walk over one camera's file-name sequence, starting from
the EMPTY state with no accumulated removals. -/
def identifyCamera (env : CVEnv) (blur : List Nat) (thr mca : Int)
    (files : List String) : List String :=
  (files.foldl (processFile env blur thr mca) ⟨none, []⟩).unwanted

/-- `identify_similar_photos` (lines 80-136): iterate over the cameras of
the catalog; `current_image` is reset to `None` at the start of every
camera (lines 87-89) while `self.unwanted_images` accumulates across
cameras. -/
def identify_similar_photos (env : CVEnv) (blur : List Nat) (thr mca : Int)
    (dataset : List (String × List String)) : List String :=
  dataset.foldl
    (fun unwanted cam =>
      (cam.2.foldl (processFile env blur thr mca) ⟨none, unwanted⟩).unwanted)
    []

/-! ### Remover: `remove_similar_photos` (lines 144-176) -/

/-- The remover's observable run state: the folder contents `fs`, the value
of `num_removed_images` (a Python int, so it may go negative), and the
trace of names passed to `os.remove` (each loop iteration attempts exactly
one deletion). -/
structure RemoveResult where
  fs : List String
  num_removed_images : Int
  attempts : List String
deriving DecidableEq, Repr

/-- One iteration of the remover's loop (lines 160-170): attempt
`os.remove`; on success increment the counter; on any exception decrement
it (the `except` clause swallows the exception and the loop continues). -/
def removeStep (st : RemoveResult) (image_name : String) : RemoveResult :=
  match osRemove st.fs image_name with
  | .ok fs2 =>
      { fs := fs2, num_removed_images := st.num_removed_images + 1,
        attempts := st.attempts ++ [image_name] }
  | .error _ =>
      { st with
          num_removed_images := st.num_removed_images - 1,
          attempts := st.attempts ++ [image_name] }

/-- `remove_similar_photos` (lines 144-176) over a folder modelled by its
listing `fs` and the unwanted list. -/
def remove_similar_photos (fs : List String) (unwanted : List String) : RemoveResult :=
  unwanted.foldl removeStep ⟨fs, 0, []⟩

/-! ### Concrete environments used by witnesses -/

/-- A concrete environment for witnesses: every name decodes to the same
4×6 image, resizing keeps the pixel content, preprocessing is the identity
and the score is 0 for identical content and 5000 otherwise. -/
def demoEnv : CVEnv where
  imread := fun _ => some ⟨4, 6, [0]⟩
  resizeData := fun img _ => img.data
  preprocess := fun _ img => img
  score_change := fun a b _ => if a.data = b.data then 0 else 5000

/-- A concrete environment whose images have name-dependent shapes and
content, and where `"bad"` fails to decode. -/
def demoEnvB : CVEnv where
  imread := fun n => if n = "bad" then none else some ⟨n.length, 5, [n.length]⟩
  resizeData := fun img _ => img.data
  preprocess := fun _ img => img
  score_change := fun a b _ => if a.data = b.data then 0 else 5000

/-! ### Loader lemmas -/

theorem lookupD_nil (c : String) : lookupD [] c = none := rfl

theorem lookupD_cons (p : String × List String) (d : Dict) (c : String) :
    lookupD (p :: d) c = if p.1 = c then some p.2 else lookupD d c := by
  by_cases h : p.1 = c
  · rw [if_pos h]
    unfold lookupD
    rw [List.find?_cons_of_pos _ (by simp [h])]
    rfl
  · rw [if_neg h]
    unfold lookupD
    rw [List.find?_cons_of_neg _ (by simp [h])]

theorem lookupD_appendToKey_self (d : Dict) (cam f : String) (v : List String)
    (h : lookupD d cam = some v) :
    lookupD (appendToKey d cam f) cam = some (v ++ [f]) := by
  induction d with
  | nil => rw [lookupD_nil] at h; exact absurd h (by simp)
  | cons p d ih =>
    rw [lookupD_cons] at h
    by_cases hp : p.1 = cam
    · rw [if_pos hp] at h
      have hv : p.2 = v := Option.some.inj h
      unfold appendToKey
      rw [if_pos hp, lookupD_cons, if_pos hp, hv]
    · rw [if_neg hp] at h
      unfold appendToKey
      rw [if_neg hp, lookupD_cons, if_neg hp]
      exact ih h

theorem lookupD_appendToKey_ne (d : Dict) (cam f c : String) (h : c ≠ cam) :
    lookupD (appendToKey d cam f) c = lookupD d c := by
  induction d with
  | nil => rfl
  | cons p d ih =>
    by_cases hp : p.1 = cam
    · have hpc : ¬ p.1 = c := by rw [hp]; exact fun e => h e.symm
      unfold appendToKey
      rw [if_pos hp, lookupD_cons, lookupD_cons, if_neg hpc, if_neg hpc]
    · unfold appendToKey
      rw [if_neg hp, lookupD_cons, lookupD_cons]
      by_cases hpc : p.1 = c
      · rw [if_pos hpc, if_pos hpc]
      · rw [if_neg hpc, if_neg hpc]
        exact ih

theorem lookupD_append_new (d : Dict) (cam c : String) :
    lookupD (d ++ [(cam, [])]) c =
      match lookupD d c with
      | some v => some v
      | none => if c = cam then some ([] : List String) else none := by
  induction d with
  | nil =>
    rw [List.nil_append, lookupD_cons]
    show (if cam = c then some [] else lookupD [] c) =
      if c = cam then some ([] : List String) else none
    by_cases hc : cam = c
    · rw [if_pos hc, if_pos hc.symm]
    · rw [if_neg hc, if_neg (fun e => hc e.symm), lookupD_nil]
  | cons p d ih =>
    rw [List.cons_append, lookupD_cons, lookupD_cons]
    by_cases hpc : p.1 = c
    · simp only [if_pos hpc]
    · simp only [if_neg hpc]
      exact ih

theorem find?_isSome_iff_lookupD (d : Dict) (c : String) :
    (d.find? (fun p => p.1 = c)).isSome = true ↔ ∃ v, lookupD d c = some v := by
  unfold lookupD
  cases h : d.find? (fun p => p.1 = c) <;> simp [h]

theorem lookupD_insertFile (d : Dict) (f c : String) :
    lookupD (insertFile d f) c =
      if c = f.take 3 then
        match lookupD d c with
        | some v => some (v ++ [f])
        | none => some []
      else lookupD d c := by
  simp only [insertFile]
  by_cases hfind : (d.find? (fun p => p.1 = f.take 3)).isSome = true
  · obtain ⟨v, hv⟩ := (find?_isSome_iff_lookupD d (f.take 3)).mp hfind
    rw [if_pos hfind]
    by_cases hc : c = f.take 3
    · rw [if_pos hc, hc, hv]
      exact lookupD_appendToKey_self d (f.take 3) f v hv
    · rw [if_neg hc]
      exact lookupD_appendToKey_ne d (f.take 3) f c hc
  · have hnone : lookupD d (f.take 3) = none := by
      unfold lookupD
      cases h : d.find? (fun p => p.1 = f.take 3)
      · rfl
      · rw [h] at hfind; simp at hfind
    rw [if_neg hfind, lookupD_append_new d (f.take 3) c]
    by_cases hc : c = f.take 3
    · rw [if_pos hc, hc, hnone]
      simp
    · rw [if_neg hc]
      cases h : lookupD d c <;> simp [hc]

theorem lookupD_foldl_insertFile (l : List String) :
    ∀ (d : Dict) (c : String),
      lookupD (l.foldl insertFile d) c =
        match lookupD d c with
        | some v => some (v ++ l.filter (fun n => n.take 3 = c))
        | none =>
            match l.filter (fun n => n.take 3 = c) with
            | [] => none
            | _ :: tl => some tl := by
  induction l with
  | nil =>
    intro d c
    cases h : lookupD d c <;> simp [h]
  | cons f l ih =>
    intro d c
    simp only [List.foldl_cons]
    rw [ih (insertFile d f) c, lookupD_insertFile d f c, List.filter_cons]
    by_cases hc : c = f.take 3
    · have hc2 : decide (f.take 3 = c) = true := decide_eq_true hc.symm
      rw [if_pos hc, hc2, if_pos rfl]
      cases h : lookupD d c <;> simp
    · have hc2 : decide (f.take 3 = c) = false :=
        decide_eq_false (fun e => hc e.symm)
      rw [if_neg hc, hc2, if_neg (by simp)]

/-! ### Claim theorems: loader -/

/-- C2: for every folder listing, the loader's dictionary maps each camera
key (the first 3 characters of a file name) to exactly those file names
with that prefix encountered strictly after the key's first occurrence, in
enumeration order; the file name that created the key is not in the key's
sequence, and keys exist exactly for the 3-character prefixes that occur. -/
theorem loader_groups_strictly_after_first (listing : List String) (camera : String) :
    lookupD (load_input_dict listing) camera =
      match listing.filter (fun n => n.take 3 = camera) with
      | [] => none
      | _ :: tl => some tl := by
  unfold load_input_dict
  rw [lookupD_foldl_insertFile listing [] camera]
  simp [lookupD]

/-- C7: the loader deletes the `.DS_Store` marker up front when present
(so the grouped entries are exactly the listing without the marker), and
when the marker is absent the `FileNotFoundError` is caught: no error
reaches the caller and the mapping is the normal grouping of the whole
listing. -/
theorem loader_marker_file_handling (fs : List String) :
    load_input fs = .ok (load_input_dict (fs.filter (fun n => ¬ n = dsStoreName))) ∧
    (dsStoreName ∉ fs → load_input fs = .ok (load_input_dict fs)) := by
  have hfilter : dsStoreName ∉ fs → fs.filter (fun n => ¬ n = dsStoreName) = fs := by
    intro h
    apply List.filter_eq_self.mpr
    intro a ha
    exact decide_eq_true (fun he => h (he ▸ ha))
  constructor
  · unfold load_input osRemove
    by_cases h : dsStoreName ∈ fs
    · rw [if_pos h]
    · rw [if_neg h, hfilter h]
  · intro h
    unfold load_input osRemove
    rw [if_neg h]

/-- Witness for C7 at a concrete input: a folder without the marker file
loads without error into the normal grouping. -/
theorem loader_marker_file_handling_witness :
    load_input ["c10-1.png"] = .ok (load_input_dict ["c10-1.png"]) :=
  (loader_marker_file_handling ["c10-1.png"]).2 (by decide)

/-! ### Claim theorems: remover -/

/-- C8: every name on the removal list is passed to `os.remove` exactly
once, in list order, whatever the folder contents — deletion failures are
swallowed by the `except` clause (the loop body is total) and never stop
the processing of the remaining names. -/
theorem remover_attempts_every_name (fs unwanted : List String) :
    (remove_similar_photos fs unwanted).attempts = unwanted := by
  suffices h : ∀ (l : List String) (st : RemoveResult),
      (l.foldl removeStep st).attempts = st.attempts ++ l by
    simpa using h unwanted ⟨fs, 0, []⟩
  intro l
  induction l with
  | nil => intro st; simp
  | cons n l ih =>
    intro st
    have hstep : (removeStep st n).attempts = st.attempts ++ [n] := by
      unfold removeStep
      cases h : osRemove st.fs n <;> simp
    simp only [List.foldl_cons, ih (removeStep st n), hstep]
    simp

/-- C1 is violated by the code: on a deletion failure the counter is
decremented (`num_removed_images -= 1`, line 169), so with an empty folder
and the removal list `["a.png"]` the reported count is `-1`, while the
number of successful deletions is `0` (the folder is unchanged). -/
theorem remover_count_decremented_on_failure :
    (remove_similar_photos [] ["a.png"]).num_removed_images = -1 ∧
    (remove_similar_photos [] ["a.png"]).fs = [] := by
  constructor <;> rfl

/-! ### Detector lemmas -/

theorem reconcile_height (env : CVEnv) (cur img : Image) :
    (reconcile env cur img).height = cur.height := by
  unfold reconcile
  by_cases h : (cur.height, cur.width) = (img.height, img.width)
  · rw [if_pos h]
    exact (Prod.mk.injEq _ _ _ _ ▸ h).1.symm
  · rw [if_neg h]
    rfl

theorem reconcile_width (env : CVEnv) (cur img : Image) :
    (reconcile env cur img).width = cur.width := by
  unfold reconcile
  by_cases h : (cur.height, cur.width) = (img.height, img.width)
  · rw [if_pos h]
    exact (Prod.mk.injEq _ _ _ _ ▸ h).2.symm
  · rw [if_neg h]
    rfl

theorem processFile_decompose (env : CVEnv) (blur : List Nat) (thr mca : Int)
    (c : Option Image) (u : List String) (n : String) :
    processFile env blur thr mca ⟨c, u⟩ n =
      ⟨(processFile env blur thr mca ⟨c, []⟩ n).current,
       u ++ (processFile env blur thr mca ⟨c, []⟩ n).unwanted⟩ := by
  unfold processFile
  cases h : env.imread n with
  | none => simp
  | some image =>
    cases c with
    | none => simp
    | some cur =>
      simp only
      by_cases hs : stepScore env blur mca cur (reconcile env cur image) < thr
      · rw [if_pos hs, if_pos hs]
        simp
      · rw [if_neg hs, if_neg hs]
        simp

theorem foldl_processFile_accum (env : CVEnv) (blur : List Nat) (thr mca : Int)
    (files : List String) :
    ∀ (c : Option Image) (u : List String),
      files.foldl (processFile env blur thr mca) ⟨c, u⟩ =
        ⟨(files.foldl (processFile env blur thr mca) ⟨c, []⟩).current,
         u ++ (files.foldl (processFile env blur thr mca) ⟨c, []⟩).unwanted⟩ := by
  induction files with
  | nil => intro c u; simp
  | cons f files ih =>
    intro c u
    simp only [List.foldl_cons]
    cases hX : processFile env blur thr mca ⟨c, []⟩ f with
    | mk xc xu =>
      rw [processFile_decompose env blur thr mca c u f, hX]
      simp only
      rw [ih xc (u ++ xu), ih xc xu]
      simp

theorem foldl_processFile_all_unreadable (env : CVEnv) (blur : List Nat)
    (thr mca : Int) (files : List String) :
    ∀ (s : DetectState), (∀ n ∈ files, env.imread n = none) →
      files.foldl (processFile env blur thr mca) s =
        ⟨s.current, s.unwanted ++ files⟩ := by
  induction files with
  | nil => intro s _; simp
  | cons f files ih =>
    intro s hall
    have hf : env.imread f = none := hall f (by simp)
    simp only [List.foldl_cons]
    have hstep : processFile env blur thr mca s f =
        ⟨s.current, s.unwanted ++ [f]⟩ := by
      unfold processFile
      rw [hf]
    rw [hstep, ih ⟨s.current, s.unwanted ++ [f]⟩ (fun n hn => hall n (by simp [hn]))]
    simp

theorem filter_isNone_of_all_none (env : CVEnv) (files : List String)
    (h : ∀ n ∈ files, env.imread n = none) :
    files.filter (fun n => (env.imread n).isNone) = files := by
  apply List.filter_eq_self.mpr
  intro a ha
  rw [h a ha]
  rfl

theorem unwanted_single_decodable (env : CVEnv) (blur : List Nat) (thr mca : Int)
    (files : List String) :
    ∀ (acc : List String),
      (files.filter (fun n => (env.imread n).isSome)).length = 1 →
      (files.foldl (processFile env blur thr mca) ⟨none, acc⟩).unwanted =
        acc ++ files.filter (fun n => (env.imread n).isNone) := by
  induction files with
  | nil => intro acc h; simp at h
  | cons f files ih =>
    intro acc h
    simp only [List.foldl_cons]
    cases hf : env.imread f with
    | none =>
      have hstep : processFile env blur thr mca ⟨none, acc⟩ f =
          ⟨none, acc ++ [f]⟩ := by
        unfold processFile
        rw [hf]
      have h' : (files.filter (fun n => (env.imread n).isSome)).length = 1 := by
        rw [List.filter_cons] at h
        simpa [hf] using h
      rw [hstep, ih (acc ++ [f]) h', List.filter_cons]
      simp [hf]
    | some img =>
      have hstep : processFile env blur thr mca ⟨none, acc⟩ f =
          ⟨some img, acc⟩ := by
        unfold processFile
        rw [hf]
      have h' : files.filter (fun n => (env.imread n).isSome) = [] := by
        rw [List.filter_cons] at h
        simp only [hf, Option.isSome_some, if_true, List.length_cons,
          Nat.add_left_eq_self, List.length_eq_zero] at h
        exact h
      have hall : ∀ n ∈ files, env.imread n = none := by
        intro n hn
        by_contra hne
        have hsome : (env.imread n).isSome = true := by
          cases he : env.imread n
          · exact absurd he hne
          · rfl
        have : n ∈ files.filter (fun n => (env.imread n).isSome) :=
          List.mem_filter.mpr ⟨hn, hsome⟩
        rw [h'] at this
        exact absurd this (List.not_mem_nil n)
      rw [hstep,
        foldl_processFile_all_unreadable env blur thr mca files ⟨some img, acc⟩ hall]
      rw [List.filter_cons]
      simp only [hf, Option.isNone_some, Bool.false_eq_true, if_false]
      rw [filter_isNone_of_all_none env files hall]

theorem current_dims_invariant (env : CVEnv) (blur : List Nat) (thr mca : Int)
    (files : List String) :
    ∀ (s : DetectState) (cur : Image), s.current = some cur →
      ∃ rep, (files.foldl (processFile env blur thr mca) s).current = some rep ∧
        rep.height = cur.height ∧ rep.width = cur.width := by
  induction files with
  | nil =>
    intro s cur hs
    exact ⟨cur, by simpa using hs, rfl, rfl⟩
  | cons f files ih =>
    intro s cur hs
    simp only [List.foldl_cons]
    cases hf : env.imread f with
    | none =>
      have hstep : (processFile env blur thr mca s f).current = some cur := by
        unfold processFile
        rw [hf]
        exact hs
      obtain ⟨rep, h1, h2, h3⟩ := ih (processFile env blur thr mca s f) cur hstep
      exact ⟨rep, h1, h2, h3⟩
    | some img =>
      cases s with
      | mk sc su =>
        have hsc : sc = some cur := hs
        subst hsc
        by_cases hscore : stepScore env blur mca cur (reconcile env cur img) < thr
        · have hstep : processFile env blur thr mca ⟨some cur, su⟩ f =
              ⟨some cur, su ++ [f]⟩ := by
            unfold processFile
            rw [hf]
            simp only
            rw [if_pos hscore]
          rw [hstep]
          exact ih ⟨some cur, su ++ [f]⟩ cur rfl
        · have hstep : processFile env blur thr mca ⟨some cur, su⟩ f =
              ⟨some (reconcile env cur img), su⟩ := by
            unfold processFile
            rw [hf]
            simp only
            rw [if_neg hscore]
          rw [hstep]
          obtain ⟨rep, h1, h2, h3⟩ :=
            ih ⟨some (reconcile env cur img), su⟩ (reconcile env cur img) rfl
          exact ⟨rep, h1, by rw [h2, reconcile_height], by rw [h3, reconcile_width]⟩

theorem processFile_with_representative (env : CVEnv) (blur : List Nat)
    (thr mca : Int) (s : DetectState) (name : String) (img current_image : Image)
    (h1 : env.imread name = some img) (h2 : s.current = some current_image) :
    (stepScore env blur mca current_image (reconcile env current_image img) < thr →
      processFile env blur thr mca s name =
        ⟨some current_image, s.unwanted ++ [name]⟩) ∧
    (¬ stepScore env blur mca current_image (reconcile env current_image img) < thr →
      processFile env blur thr mca s name =
        ⟨some (reconcile env current_image img), s.unwanted⟩) := by
  cases s with
  | mk sc su =>
    have hsc : sc = some current_image := h2
    subst hsc
    constructor
    · intro hlt
      unfold processFile
      rw [h1]
      simp only
      rw [if_pos hlt]
    · intro hge
      unfold processFile
      rw [h1]
      simp only
      rw [if_neg hge]

theorem identify_join_aux (env : CVEnv) (blur : List Nat) (thr mca : Int)
    (dataset : List (String × List String)) :
    ∀ (u : List String),
      dataset.foldl
          (fun unwanted cam =>
            (cam.2.foldl (processFile env blur thr mca) ⟨none, unwanted⟩).unwanted)
          u =
        u ++ (dataset.map (fun cam => identifyCamera env blur thr mca cam.2)).flatten := by
  induction dataset with
  | nil => intro u; simp
  | cons cam dataset ih =>
    intro u
    simp only [List.foldl_cons, List.map_cons, List.flatten_cons]
    rw [foldl_processFile_accum env blur thr mca cam.2 none u]
    simp only
    rw [ih (u ++ (cam.2.foldl (processFile env blur thr mca) ⟨none, []⟩).unwanted)]
    simp [identifyCamera, List.append_assoc]

/-! ### Claim theorems: detector -/

/-- C3: in a comparison step with a held representative and a successfully
decoded candidate, a score strictly below the threshold appends the
candidate's name to the removal list and leaves the representative
unchanged; otherwise the name is not appended and the (reconciled)
candidate becomes the new representative. -/
theorem detector_score_decision (env : CVEnv) (blur : List Nat) (thr mca : Int)
    (s : DetectState) (name : String) (img current_image : Image)
    (h1 : env.imread name = some img) (h2 : s.current = some current_image) :
    (stepScore env blur mca current_image (reconcile env current_image img) < thr →
      processFile env blur thr mca s name =
        ⟨some current_image, s.unwanted ++ [name]⟩) ∧
    (¬ stepScore env blur mca current_image (reconcile env current_image img) < thr →
      processFile env blur thr mca s name =
        ⟨some (reconcile env current_image img), s.unwanted⟩) :=
  processFile_with_representative env blur thr mca s name img current_image h1 h2

/-- Witness for C3 at a concrete input: in `demoEnv` every image has the
same content, so the score is 0 < 750 and the candidate is appended while
the representative stays. -/
theorem detector_score_decision_witness :
    processFile demoEnv [5, 7] 750 50 ⟨some ⟨4, 6, [0]⟩, []⟩ "x" =
      ⟨some ⟨4, 6, [0]⟩, ["x"]⟩ :=
  (detector_score_decision demoEnv [5, 7] 750 50 ⟨some ⟨4, 6, [0]⟩, []⟩ "x"
    ⟨4, 6, [0]⟩ ⟨4, 6, [0]⟩ rfl rfl).1 (by decide)

/-- C4: a file whose decode fails is appended to the removal list
unconditionally: the per-camera state (representative or EMPTY) is
unchanged and the walk proceeds; the statement quantifies over every
state, in particular the EMPTY one. -/
theorem detector_decode_failure_forced_removal (env : CVEnv) (blur : List Nat)
    (thr mca : Int) (s : DetectState) (name : String)
    (h : env.imread name = none) :
    processFile env blur thr mca s name = ⟨s.current, s.unwanted ++ [name]⟩ := by
  unfold processFile
  rw [h]

/-- Witness for C4 at a concrete input: in `demoEnvB` the name `"bad"`
fails to decode and is appended even though no representative exists. -/
theorem detector_decode_failure_forced_removal_witness :
    processFile demoEnvB [5, 7] 750 50 ⟨none, []⟩ "bad" = ⟨none, ["bad"]⟩ :=
  detector_decode_failure_forced_removal demoEnvB [5, 7] 750 50 ⟨none, []⟩ "bad"
    (by decide)

/-- C5: when the candidate's pixel-grid dimensions differ from the
representative's, the detector resizes the candidate (with `dsize =
(width, height)` of the representative, OpenCV's convention), and the
reconciled candidate has exactly the representative's `(height, width)`
before preprocessing and scoring; `reconcile` is total, so the mismatch is
never surfaced as an error. -/
theorem detector_shape_reconciliation (env : CVEnv) (cur img : Image)
    (h : (cur.height, cur.width) ≠ (img.height, img.width)) :
    reconcile env cur img = cv2_resize env img (cur.width, cur.height) ∧
    (reconcile env cur img).height = cur.height ∧
    (reconcile env cur img).width = cur.width := by
  refine ⟨?_, reconcile_height env cur img, reconcile_width env cur img⟩
  unfold reconcile
  rw [if_neg h]

/-- Witness for C5 at a concrete input: a 2×3 representative against a
4×5 candidate. -/
theorem detector_shape_reconciliation_witness :
    reconcile demoEnvB ⟨2, 3, [0]⟩ ⟨4, 5, [1]⟩ =
      cv2_resize demoEnvB ⟨4, 5, [1]⟩ (3, 2) ∧
    (reconcile demoEnvB ⟨2, 3, [0]⟩ ⟨4, 5, [1]⟩).height = 2 ∧
    (reconcile demoEnvB ⟨2, 3, [0]⟩ ⟨4, 5, [1]⟩).width = 3 :=
  detector_shape_reconciliation demoEnvB ⟨2, 3, [0]⟩ ⟨4, 5, [1]⟩ (by decide)

/-- C6: the first successfully decoded frame of a camera is always
retained: in the EMPTY state a successful decode is adopted as the
representative with no comparison and no append; consequently, for a
camera whose sequence has exactly one successfully decoded frame, the
removal list holds exactly the decode failures — zero score-based
entries. -/
theorem detector_first_decoded_retained (env : CVEnv) (blur : List Nat)
    (thr mca : Int) :
    (∀ (s : DetectState) (name : String) (img : Image),
        s.current = none → env.imread name = some img →
        processFile env blur thr mca s name = ⟨some img, s.unwanted⟩) ∧
    (∀ files : List String,
        (files.filter (fun n => (env.imread n).isSome)).length = 1 →
        identifyCamera env blur thr mca files =
          files.filter (fun n => (env.imread n).isNone)) := by
  constructor
  · intro s name img hcur himg
    cases s with
    | mk sc su =>
      have hsc : sc = none := hcur
      subst hsc
      unfold processFile
      rw [himg]
  · intro files hone
    unfold identifyCamera
    rw [unwanted_single_decodable env blur thr mca files [] hone]
    rfl

/-- Witness for C6 at concrete inputs: the camera sequence
`["bad", "img1"]` in `demoEnvB` has one successfully decoded frame and its
removal list is exactly the decode failure `["bad"]`. -/
theorem detector_first_decoded_retained_witness :
    processFile demoEnvB [5] 750 50 ⟨none, ["bad"]⟩ "img1" =
      ⟨some ⟨4, 5, [4]⟩, ["bad"]⟩ ∧
    identifyCamera demoEnvB [5] 750 50 ["bad", "img1"] = ["bad"] :=
  ⟨(detector_first_decoded_retained demoEnvB [5] 750 50).1
      ⟨none, ["bad"]⟩ "img1" ⟨4, 5, [4]⟩ rfl (by decide),
   (detector_first_decoded_retained demoEnvB [5] 750 50).2
      ["bad", "img1"] (by decide)⟩

/-- C9: the detector resets the representative to `None` at the start of
every camera, so the global removal list is the concatenation of the
per-camera removal lists computed independently from the EMPTY state; in
particular, in `demoEnv` (all frames identical in content, threshold 750)
two cameras of 2 frames each yield a total removal count of 2, in either
camera order. -/
theorem detector_camera_independence (env : CVEnv) (blur : List Nat)
    (thr mca : Int) :
    (∀ dataset : List (String × List String),
        identify_similar_photos env blur thr mca dataset =
          (dataset.map (fun cam => identifyCamera env blur thr mca cam.2)).flatten) ∧
    (identify_similar_photos demoEnv [5, 7] 750 50
        [("camA", ["cA1", "cA2"]), ("camB", ["cB1", "cB2"])]).length = 2 ∧
    (identify_similar_photos demoEnv [5, 7] 750 50
        [("camB", ["cB1", "cB2"]), ("camA", ["cA1", "cA2"])]).length = 2 := by
  refine ⟨?_, by decide, by decide⟩
  intro dataset
  unfold identify_similar_photos
  rw [identify_join_aux env blur thr mca dataset []]
  rfl

/-- C10: when a candidate with mismatched dimensions scores at or above
the threshold, the image promoted to representative is the resized
candidate, not the originally decoded one; consequently, once a
representative exists, the representative's pixel-grid dimensions are
invariant for the rest of the camera's walk (hence equal to those of the
camera's first successfully decoded frame). -/
theorem detector_resized_candidate_promoted (env : CVEnv) (blur : List Nat)
    (thr mca : Int) :
    (∀ (s : DetectState) (name : String) (img current_image : Image),
        env.imread name = some img → s.current = some current_image →
        (current_image.height, current_image.width) ≠ (img.height, img.width) →
        ¬ stepScore env blur mca current_image
            (cv2_resize env img (current_image.width, current_image.height)) < thr →
        processFile env blur thr mca s name =
          ⟨some (cv2_resize env img (current_image.width, current_image.height)),
           s.unwanted⟩) ∧
    (∀ (files : List String) (s : DetectState) (current_image : Image),
        s.current = some current_image →
        ∃ rep,
          (files.foldl (processFile env blur thr mca) s).current = some rep ∧
          rep.height = current_image.height ∧ rep.width = current_image.width) := by
  constructor
  · intro s name img current_image h1 h2 hdim hscore
    have hrec : reconcile env current_image img =
        cv2_resize env img (current_image.width, current_image.height) := by
      unfold reconcile
      rw [if_neg hdim]
    have := (processFile_with_representative env blur thr mca s name img
      current_image h1 h2).2
    rw [hrec] at this
    exact this hscore
  · intro files s current_image hs
    exact current_dims_invariant env blur thr mca files s current_image hs

/-- Witness for C10 at concrete inputs: in `demoEnvB` a 2×3 representative
with content `[9]` meets the 4×5 candidate `"img1"` (content `[4]`); the
score is 5000 ≥ 750, so the resized candidate (shape 2×3, content `[4]`)
becomes the representative, whose dimensions match the old ones. -/
theorem detector_resized_candidate_promoted_witness :
    processFile demoEnvB [5] 750 50 ⟨some ⟨2, 3, [9]⟩, []⟩ "img1" =
      ⟨some (cv2_resize demoEnvB ⟨4, 5, [4]⟩ (3, 2)), []⟩ ∧
    ∃ rep,
      ((["img1"] : List String).foldl (processFile demoEnvB [5] 750 50)
          ⟨some ⟨2, 3, [9]⟩, []⟩).current = some rep ∧
      rep.height = 2 ∧ rep.width = 3 :=
  ⟨(detector_resized_candidate_promoted demoEnvB [5] 750 50).1
      ⟨some ⟨2, 3, [9]⟩, []⟩ "img1" ⟨4, 5, [4]⟩ ⟨2, 3, [9]⟩
      (by decide) rfl (by decide) (by decide),
   (detector_resized_candidate_promoted demoEnvB [5] 750 50).2
      ["img1"] ⟨some ⟨2, 3, [9]⟩, []⟩ ⟨2, 3, [9]⟩ rfl⟩

end Kopernikus
